import Mathlib

/-!
A shallow embedding of src/BubbleCounter.py (bitplane/bubbler, Python 2).

Modelling conventions, justified against the source:

* Python float arithmetic is idealised as exact rational arithmetic; decoded
  sample magnitudes are rationals (IEEE special values appear in the decoder
  layer as explicit PyVal constructors).
* The instance field lastPeriodStdDev of the source is represented by its
  square, lastPeriodStdDevSq.  The source uses the standard deviation only in
  the comparison sqrt(sampleVariance) > lastPeriodStdDev * 2.0 (line 140), and
  for nonnegative operands that comparison is equivalent to
  sampleVariance > 4 * lastPeriodStdDevSq (lemma bubbleTest_models_sqrt below).
  The square of the updated value sqrt(periodVarianceSum / samplesPerPeriod)
  (line 156) is periodVarianceSum / samplesPerPeriod, and periodVarianceSum is
  a sum of squares, hence nonnegative on every reachable state
  (lemma processSample_preserves_nonneg).
* samplesPerPeriod and minSamplesBetweenBubbles (lines 94-95) divide Python 2
  ints with the / operator, which floors: Nat division.  The two statistical
  divisions at lines 155-156 are modelled as exact rational division; in
  Python 2 they floor only when every decoded sample is an int, and no theorem
  below depends on that difference.
* Python modulo by zero (line 150, totalSampleCount % samplesPerPeriod when
  samplesPerPeriod is 0) raises ZeroDivisionError; the embedding makes that
  guard explicit in processSample.
* The except clauses at lines 163-169 catch IOError and KeyboardInterrupt
  quietly.  The third clause, except struct.error, evaluates the expression
  struct.error at exception time, and the module never binds the name struct
  (line 21 imports only unpack), so Python 2 replaces the in-flight exception
  with a NameError that escapes to the caller.  exceptClauses embeds this.
* The read loop iter(self.dataReader, sentinel) (line 126) stops on an empty
  read; a short nonempty read reaches unpack and raises struct.error.  The
  driver startLoopAux carries a fuel argument to make the recursion
  structural; startLoop passes input.length + 1, strictly more than the
  number of reads the loop can perform, so the fuel-exhausted branch is
  unreachable (every lemma below only needs input.length < fuel).
* An environment-injected read failure is modelled by the ioFail argument:
  the read with index k raises IOError when ioFail = some k.
-/

/-- Python exception classes that can arise in BubbleCounter.start, plus
NameError, which arises because the module does from struct import unpack
(line 21) without ever binding the name struct. -/
inductive PyError where
  | ioError
  | keyboardInterrupt
  | structError
  | zeroDivisionError
  | nameError
  deriving DecidableEq

/-- Embeds the exception handling of BubbleCounter.start (lines 163-169):
except IOError: pass, except KeyboardInterrupt: pass, except struct.error:
pass.  The first two clauses swallow their exception.  For any other
exception Python 2 evaluates the expression struct.error, and since the name
struct is unbound this raises a NameError that replaces the in-flight
exception and propagates to the caller.  The result is the exception the
caller of start sees (none when start returns normally). -/
def exceptClauses : PyError → Option PyError
  | .ioError => none
  | .keyboardInterrupt => none
  | _ => some .nameError

/-- Configuration parameters of BubbleCounter.__init__ that the counting
loop consumes (all Python 2 ints). -/
structure Config where
  dataFrequency : Nat
  listenTime : Nat
  minTimeBetweenBubbles : Nat
  deriving DecidableEq

/-- Line 94: samplesPerPeriod = (dataFrequency * listenTime) / 1000, with
Python 2 integer division (floor). -/
def Config.samplesPerPeriod (cfg : Config) : Nat :=
  cfg.dataFrequency * cfg.listenTime / 1000

/-- Line 95: minSamplesBetweenBubbles =
(dataFrequency * minTimeBetweenBubbles) / 1000, Python 2 integer division. -/
def Config.minSamplesBetweenBubbles (cfg : Config) : Nat :=
  cfg.dataFrequency * cfg.minTimeBetweenBubbles / 1000

/-- The loop variables of BubbleCounter.start (lines 120-122), with
lastPeriodStdDev carried as its square (see the header comment).
lastBubble is the variable the spec calls lastEventIndex. -/
structure LoopState where
  totalSampleCount : Nat
  periodSum : ℚ
  lastPeriodMean : ℚ
  periodVarianceSum : ℚ
  lastPeriodStdDevSq : ℚ
  lastBubble : Nat
  periodBubbleCount : Nat
  deriving DecidableEq

/-- Lines 120-122: every loop variable starts at zero. -/
def initState : LoopState := ⟨0, 0, 0, 0, 0, 0, 0⟩

/-- The event test of line 140, sqrt(sampleVariance) > lastPeriodStdDev * 2.0,
expressed on the squared standard deviation:
sampleVariance > 4 * lastPeriodStdDevSq.  Lemma bubbleTest_models_sqrt proves
the two forms equivalent for nonnegative operands. -/
def bubbleTest (lastPeriodStdDevSq sampleVariance : ℚ) : Bool :=
  decide (4 * lastPeriodStdDevSq < sampleVariance)

/-- Lines 139-147: the candidate test and debounce.  On a candidate the
variable lastBubble is set to totalSampleCount unconditionally, and the
period count is incremented only when
totalSampleCount > lastBubble + minSamplesBetweenBubbles computed with the
previous lastBubble (nextBubbleMinSampleCount).  Returns the new
(lastBubble, periodBubbleCount). -/
def bubbleStep (cfg : Config) (totalSampleCount lastBubble periodBubbleCount : Nat)
    (sampleVariance lastPeriodStdDevSq : ℚ) : Nat × Nat :=
  if bubbleTest lastPeriodStdDevSq sampleVariance then
    let nextBubbleMinSampleCount := lastBubble + cfg.minSamplesBetweenBubbles
    if nextBubbleMinSampleCount < totalSampleCount then
      (totalSampleCount, periodBubbleCount + 1)
    else
      (totalSampleCount, periodBubbleCount)
  else
    (lastBubble, periodBubbleCount)

/-- Result of one iteration of the loop body on a decoded sample: either the
updated state together with the count emitted at a period boundary, or a
raised Python exception. -/
inductive StepResult where
  | ok : LoopState → Option Nat → StepResult
  | err : PyError → StepResult
  deriving DecidableEq

/-- Lines 128-160 of BubbleCounter.start for one already-decoded sample
magnitude sampleAbs: update totalSampleCount, the period sums and the
debounce variables, then on a period boundary
(totalSampleCount % samplesPerPeriod == 0) emit periodBubbleCount, store the
new baseline mean and (squared) standard deviation, and reset the period
accumulators.  When samplesPerPeriod = 0 the modulo of line 150 raises
ZeroDivisionError. -/
def processSample (cfg : Config) (s : LoopState) (sampleAbs : ℚ) : StepResult :=
  let totalSampleCount := s.totalSampleCount + 1
  let sampleVariance := (sampleAbs - s.lastPeriodMean) ^ 2
  let periodSum := s.periodSum + sampleAbs
  let periodVarianceSum := s.periodVarianceSum + sampleVariance
  let lbCnt := bubbleStep cfg totalSampleCount s.lastBubble s.periodBubbleCount
    sampleVariance s.lastPeriodStdDevSq
  if cfg.samplesPerPeriod = 0 then
    .err .zeroDivisionError
  else if totalSampleCount % cfg.samplesPerPeriod = 0 then
    .ok ⟨totalSampleCount, 0, periodSum / (cfg.samplesPerPeriod : ℚ), 0,
         periodVarianceSum / (cfg.samplesPerPeriod : ℚ), lbCnt.1, 0⟩
      (some lbCnt.2)
  else
    .ok ⟨totalSampleCount, periodSum, s.lastPeriodMean, periodVarianceSum,
         s.lastPeriodStdDevSq, lbCnt.1, lbCnt.2⟩
      none

/-- Result of a run: the emitted counts in emission order, and either the
final state (normal termination) or the Python exception raised inside the
try block. -/
inductive RunRes where
  | ok : List Nat → LoopState → RunRes
  | err : List Nat → PyError → RunRes
  deriving DecidableEq

/-- Emitted counts of a run result. -/
def RunRes.out : RunRes → List Nat
  | .ok o _ => o
  | .err o _ => o

/-- The exception a run raised, if any. -/
def RunRes.errOf : RunRes → Option PyError
  | .ok _ _ => none
  | .err _ e => some e

/-- Final state of a normally terminated run. -/
def RunRes.state? : RunRes → Option LoopState
  | .ok _ s => some s
  | .err _ _ => none

/-- Prepend one emitted count to a run result. -/
def RunRes.consOut (c : Nat) : RunRes → RunRes
  | .ok o s => .ok (c :: o) s
  | .err o e => .err (c :: o) e

/-- Prepend a list of emitted counts to a run result. -/
def RunRes.prependOut (o : List Nat) : RunRes → RunRes
  | .ok o2 s => .ok (o ++ o2) s
  | .err o2 e => .err (o ++ o2) e

/-- Sequence a run result with a continuation on its final state. -/
def RunRes.andThen : RunRes → (LoopState → RunRes) → RunRes
  | .ok o s, f => (f s).prependOut o
  | .err o e, _ => .err o e

/-- The counting loop on a list of already-decoded sample magnitudes: the
per-sample body is processSample, emitted counts are collected in order. -/
def runDet (cfg : Config) : LoopState → List ℚ → RunRes
  | s, [] => .ok [] s
  | s, a :: rest =>
    match processSample cfg s a with
    | .err e => .err [] e
    | .ok s2 none => runDet cfg s2 rest
    | .ok s2 (some c) => (runDet cfg s2 rest).consOut c

/-- Decrement the injected read-failure countdown after a successful read. -/
def tickIoFail : Option Nat → Option Nat
  | some (n + 1) => some n
  | o => o

/-- The driving loop of BubbleCounter.start (lines 124-160) over a raw byte
stream, parametric in the sample width (self.dataSize) and in the decoded
magnitude dec rawData = abs(unpack(dataFormat, rawData)[0]) of a full-width
chunk (the concrete decoders are defined with the decoder layer below).
Each iteration reads rawData = the next width bytes: an empty read ends the
loop normally (the iter sentinel), a short nonempty read makes unpack raise
struct.error (line 128), and an injected I/O failure raises IOError at the
read itself.  The fuel argument only makes the recursion structural; the
wrapper startLoop supplies more fuel than the loop can consume. -/
def startLoopAux (cfg : Config) (width : Nat) (dec : List (Fin 256) → ℚ) :
    Nat → Option Nat → List (Fin 256) → LoopState → RunRes
  | 0, _, _, s => .ok [] s
  | fuel + 1, ioFail, input, s =>
    if ioFail = some 0 then .err [] .ioError
    else
      let rawData := input.take width
      if rawData = [] then .ok [] s
      else if rawData.length < width then .err [] .structError
      else
        match processSample cfg s (dec rawData) with
        | .err e => .err [] e
        | .ok s2 none =>
            startLoopAux cfg width dec fuel (tickIoFail ioFail) (input.drop width) s2
        | .ok s2 (some c) =>
            (startLoopAux cfg width dec fuel (tickIoFail ioFail) (input.drop width) s2).consOut c

/-- BubbleCounter.start on a byte stream, from the initial loop state. -/
def startLoop (cfg : Config) (width : Nat) (dec : List (Fin 256) → ℚ)
    (ioFail : Option Nat) (input : List (Fin 256)) (s : LoopState) : RunRes :=
  startLoopAux cfg width dec (input.length + 1) ioFail input s

/-- What the caller of BubbleCounter.start observes: the counts written to
the output file, and the exception escaping start after the except clauses
of lines 163-169 ran (none on a quiet exit). -/
def startOutcome (cfg : Config) (width : Nat) (dec : List (Fin 256) → ℚ)
    (ioFail : Option Nat) (input : List (Fin 256)) : List Nat × Option PyError :=
  match startLoop cfg width dec ioFail input initState with
  | .ok o _ => (o, none)
  | .err o e => (o, exceptClauses e)

/-- State reached after the first j samples of an amplitude stream (none if
an exception was raised on the way). -/
def detStateAt (cfg : Config) (amps : List ℚ) (j : Nat) : Option LoopState :=
  (runDet cfg initState (amps.take j)).state?

/-- Sample number j (1-based, matching totalSampleCount) of the stream is a
candidate event: the test of line 140 holds at the state reached just before
it. -/
def candidateAt (cfg : Config) (amps : List ℚ) (j : Nat) : Bool :=
  match detStateAt cfg amps (j - 1), amps.get? (j - 1) with
  | some s, some a => bubbleTest s.lastPeriodStdDevSq ((a - s.lastPeriodMean) ^ 2)
  | _, _ => false

/-- Sample number j (1-based) of the stream is counted as a bubble: the
debounce block of lines 139-147 increments periodBubbleCount there. -/
def acceptedAt (cfg : Config) (amps : List ℚ) (j : Nat) : Bool :=
  match detStateAt cfg amps (j - 1), amps.get? (j - 1) with
  | some s, some a =>
      decide ((bubbleStep cfg (s.totalSampleCount + 1) s.lastBubble s.periodBubbleCount
        ((a - s.lastPeriodMean) ^ 2) s.lastPeriodStdDevSq).2 = s.periodBubbleCount + 1)
  | _, _ => false

/-- Value of a byte list read little endian (first byte least significant),
as struct.unpack does for the formats beginning with the less-than sign. -/
def leNat : List (Fin 256) → Nat
  | [] => 0
  | b :: bs => b.val + 256 * leNat bs

/-- Value of a byte list read big endian (first byte most significant), as
struct.unpack does for the formats beginning with the greater-than sign. -/
def beNat (bs : List (Fin 256)) : Nat :=
  bs.foldl (fun acc b => 256 * acc + b.val) 0

/-- Numeric value a struct.unpack call can produce in this program: a Python
int or a finite float (both exact here), or an IEEE special value. -/
inductive PyVal where
  | num : ℚ → PyVal
  | inf : PyVal
  | neginf : PyVal
  | nan : PyVal
  deriving DecidableEq

/-- Python abs on these values: abs of a finite value, abs(inf) = abs(-inf)
= inf, abs(nan) = nan. -/
def PyVal.abs : PyVal → PyVal
  | .num q => .num |q|
  | .inf => .inf
  | .neginf => .inf
  | .nan => .nan

/-- Signed interpretation of a w-byte unsigned value, as struct.unpack does
for the signed integer codes b, h, l: two's complement. -/
def toSigned (w : Nat) (n : Nat) : ℤ :=
  if n < 2 ^ (8 * w - 1) then (n : ℤ) else (n : ℤ) - 2 ^ (8 * w)

/-- Decode an IEEE-754 bit pattern with the given exponent and fraction
field widths (8/23 for binary32, 11/52 for binary64) into an exact value:
all-ones exponent gives an infinity or NaN, zero exponent the subnormals,
otherwise a normal number. -/
def decodeIEEE (expBits fracBits : Nat) (n : Nat) : PyVal :=
  let frac := n % 2 ^ fracBits
  let expo := n / 2 ^ fracBits % 2 ^ expBits
  let signBit := n / 2 ^ (fracBits + expBits) % 2
  let sgn : ℚ := if signBit = 1 then -1 else 1
  let bias : ℤ := 2 ^ (expBits - 1) - 1
  if expo = 2 ^ expBits - 1 then
    if frac = 0 then (if signBit = 1 then .neginf else .inf) else .nan
  else if expo = 0 then
    .num (sgn * (frac : ℚ) * (2 : ℚ) ^ (1 - bias - (fracBits : ℤ)))
  else
    .num (sgn * ((2 ^ fracBits + frac : Nat) : ℚ) * (2 : ℚ) ^ ((expo : ℤ) - bias - (fracBits : ℤ)))

/-- The nine wire formats of BubbleCounter.FORMATS (lines 26-34). -/
inductive SampleFormat where
  | s8
  | s16le
  | s16be
  | s32le
  | s32be
  | floatle
  | floatbe
  | float64le
  | float64be
  deriving DecidableEq

/-- Byte width of each format (the second component of FORMATS). -/
def dataSize : SampleFormat → Nat
  | .s8 => 1
  | .s16le => 2
  | .s16be => 2
  | .s32le => 4
  | .s32be => 4
  | .floatle => 4
  | .floatbe => 4
  | .float64le => 8
  | .float64be => 8

/-- unpack(dataFormat, rawData)[0] of line 128: struct.unpack requires the
chunk length to equal the format size (else struct.error, here none), then
interprets the bytes by the numeric kind and endianness of the format code
(b is a single signed byte, so endianness does not matter for it). -/
def unpackVal (fmt : SampleFormat) (chunk : List (Fin 256)) : Option PyVal :=
  if chunk.length = dataSize fmt then
    some (match fmt with
      | .s8 => .num ((toSigned 1 (leNat chunk) : ℤ) : ℚ)
      | .s16le => .num ((toSigned 2 (leNat chunk) : ℤ) : ℚ)
      | .s16be => .num ((toSigned 2 (beNat chunk) : ℤ) : ℚ)
      | .s32le => .num ((toSigned 4 (leNat chunk) : ℤ) : ℚ)
      | .s32be => .num ((toSigned 4 (beNat chunk) : ℤ) : ℚ)
      | .floatle => decodeIEEE 8 23 (leNat chunk)
      | .floatbe => decodeIEEE 8 23 (beNat chunk)
      | .float64le => decodeIEEE 11 52 (leNat chunk)
      | .float64be => decodeIEEE 11 52 (beNat chunk))
  else none

/-- Lines 128-131: sampleAbs = abs(unpack(dataFormat, rawData)[0]). -/
def sampleAbsVal (fmt : SampleFormat) (chunk : List (Fin 256)) : Option PyVal :=
  (unpackVal fmt chunk).map PyVal.abs

/-- Rational magnitude reader handed to the driver loop: the decoded
absolute value for finite samples.  The driver only applies it to chunks of
the exact format width; IEEE special values fall outside the rational
idealisation and are collapsed to 0 here, so theorems about particular
decoded values instantiate the driver with integer formats. -/
def decOfFmt (fmt : SampleFormat) (chunk : List (Fin 256)) : ℚ :=
  match sampleAbsVal fmt chunk with
  | some (.num q) => q
  | _ => 0

/-- Little-endian byte list of length w for a natural number, written from
the spec wording of the wire formats (least significant byte first). -/
def natBytesLE : Nat → Nat → List (Fin 256)
  | 0, _ => []
  | w + 1, n => ⟨n % 256, by omega⟩ :: natBytesLE w (n / 256)

/-- Encoding of a signed integer in w little-endian bytes, following the
spec wording of the integer formats (two's complement, least significant
byte first): the bytes of v taken modulo 2 ^ (8 w). -/
def encodeLE (w : Nat) (v : ℤ) : List (Fin 256) :=
  natBytesLE w (v % ((2 : ℤ) ^ (8 * w))).toNat

/-- Encoding of a signed integer in w big-endian bytes: the same bytes most
significant first. -/
def encodeBE (w : Nat) (v : ℤ) : List (Fin 256) :=
  (encodeLE w v).reverse

/-- Faithfulness of the squared event test: for a nonnegative standard
deviation d (which holds on every reachable state), the source comparison
sqrt(v) > d * 2.0 at line 140, read over the reals, is exactly bubbleTest
applied to the squared standard deviation. -/
theorem bubbleTest_models_sqrt (v d : ℚ) (hd : 0 ≤ d) :
    ((d : ℝ) * 2 < Real.sqrt (v : ℝ)) ↔ bubbleTest (d ^ 2) v = true := by
  have hd2 : (0 : ℝ) ≤ (d : ℝ) * 2 := by positivity
  rw [bubbleTest, decide_eq_true_iff]
  rw [Real.lt_sqrt hd2]
  constructor
  · intro h
    have : ((4 * d ^ 2 : ℚ) : ℝ) < ((v : ℚ) : ℝ) := by push_cast; nlinarith
    exact_mod_cast this
  · intro h
    have : ((4 * d ^ 2 : ℚ) : ℝ) < ((v : ℚ) : ℝ) := by exact_mod_cast h
    push_cast at this
    nlinarith

/-- On a candidate sample, lines 140-147 set lastBubble to totalSampleCount
and increment the count exactly when the strict gap test passes. -/
theorem bubbleStep_of_candidate (cfg : Config) (t lb cnt : Nat) (v d : ℚ)
    (h : bubbleTest d v = true) :
    bubbleStep cfg t lb cnt v d =
      (t, if lb + cfg.minSamplesBetweenBubbles < t then cnt + 1 else cnt) := by
  simp only [bubbleStep, h, if_true]
  split <;> rfl

/-- On a non-candidate sample, lines 140-147 change nothing. -/
theorem bubbleStep_of_not_candidate (cfg : Config) (t lb cnt : Nat) (v d : ℚ)
    (h : bubbleTest d v = false) :
    bubbleStep cfg t lb cnt v d = (lb, cnt) := by
  rw [bubbleStep, h]
  rfl

/-- When samplesPerPeriod is zero the loop body raises ZeroDivisionError at
the modulo of line 150. -/
theorem processSample_of_spp_zero (cfg : Config) (s : LoopState) (a : ℚ)
    (h : cfg.samplesPerPeriod = 0) :
    processSample cfg s a = .err .zeroDivisionError := by
  rw [processSample]
  simp [h]

/-- Explicit form of one loop iteration when samplesPerPeriod is nonzero:
no exception; on a period boundary the accumulated mean and squared standard
deviation are stored, the period accumulators are reset and the count is
emitted, otherwise the accumulators are carried forward; in both cases the
debounce pair comes from bubbleStep. -/
theorem processSample_eq (cfg : Config) (s : LoopState) (a : ℚ)
    (h : cfg.samplesPerPeriod ≠ 0) :
    processSample cfg s a =
      (if (s.totalSampleCount + 1) % cfg.samplesPerPeriod = 0 then
        .ok ⟨s.totalSampleCount + 1, 0,
             (s.periodSum + a) / (cfg.samplesPerPeriod : ℚ), 0,
             (s.periodVarianceSum + (a - s.lastPeriodMean) ^ 2) / (cfg.samplesPerPeriod : ℚ),
             (bubbleStep cfg (s.totalSampleCount + 1) s.lastBubble s.periodBubbleCount
               ((a - s.lastPeriodMean) ^ 2) s.lastPeriodStdDevSq).1, 0⟩
          (some (bubbleStep cfg (s.totalSampleCount + 1) s.lastBubble s.periodBubbleCount
               ((a - s.lastPeriodMean) ^ 2) s.lastPeriodStdDevSq).2)
      else
        .ok ⟨s.totalSampleCount + 1, s.periodSum + a, s.lastPeriodMean,
             s.periodVarianceSum + (a - s.lastPeriodMean) ^ 2, s.lastPeriodStdDevSq,
             (bubbleStep cfg (s.totalSampleCount + 1) s.lastBubble s.periodBubbleCount
               ((a - s.lastPeriodMean) ^ 2) s.lastPeriodStdDevSq).1,
             (bubbleStep cfg (s.totalSampleCount + 1) s.lastBubble s.periodBubbleCount
               ((a - s.lastPeriodMean) ^ 2) s.lastPeriodStdDevSq).2⟩
          none) := by
  rw [processSample]
  simp only [h, if_false]

/-- The variance accumulator and the squared standard deviation stay
nonnegative across one iteration, which is what bubbleTest_models_sqrt needs
on reachable states. -/
theorem processSample_preserves_nonneg (cfg : Config) (s : LoopState) (a : ℚ)
    (s2 : LoopState) (eo : Option Nat)
    (hv : 0 ≤ s.periodVarianceSum) (hd : 0 ≤ s.lastPeriodStdDevSq)
    (h : processSample cfg s a = .ok s2 eo) :
    0 ≤ s2.periodVarianceSum ∧ 0 ≤ s2.lastPeriodStdDevSq := by
  by_cases hz : cfg.samplesPerPeriod = 0
  · rw [processSample_of_spp_zero cfg s a hz] at h
    exact absurd h (by simp)
  · rw [processSample_eq cfg s a hz] at h
    have hvv : (0 : ℚ) ≤ s.periodVarianceSum + (a - s.lastPeriodMean) ^ 2 :=
      add_nonneg hv (sq_nonneg _)
    have hq : (0 : ℚ) ≤ (cfg.samplesPerPeriod : ℚ) := by positivity
    split at h <;> injection h with h1 h2 <;> subst h1
    · exact ⟨le_refl 0, div_nonneg hvv hq⟩
    · exact ⟨hvv, hd⟩

/-- Final state of one loop iteration, if it did not raise. -/
def StepResult.state? : StepResult → Option LoopState
  | .ok s _ => some s
  | .err _ => none

theorem RunRes.prependOut_nil (r : RunRes) : r.prependOut [] = r := by
  cases r <;> rfl

theorem RunRes.consOut_prependOut (c : Nat) (o : List Nat) (r : RunRes) :
    (r.prependOut o).consOut c = r.prependOut (c :: o) := by
  cases r <;> rfl

theorem RunRes.andThen_consOut (r : RunRes) (f : LoopState → RunRes) (c : Nat) :
    (r.andThen f).consOut c = (r.consOut c).andThen f := by
  cases r with
  | err o e => rfl
  | ok o s =>
    show ((f s).prependOut o).consOut c = (f s).prependOut (c :: o)
    exact RunRes.consOut_prependOut c o (f s)

theorem RunRes.state?_prependOut (o : List Nat) (r : RunRes) :
    (r.prependOut o).state? = r.state? := by
  cases r <;> rfl

theorem RunRes.state?_consOut (c : Nat) (r : RunRes) :
    (r.consOut c).state? = r.state? := by
  cases r <;> rfl

theorem RunRes.errOf_consOut (c : Nat) (r : RunRes) :
    (r.consOut c).errOf = r.errOf := by
  cases r <;> rfl

theorem RunRes.out_consOut (c : Nat) (r : RunRes) :
    (r.consOut c).out = c :: r.out := by
  cases r <;> rfl

theorem RunRes.state?_andThen (r : RunRes) (f : LoopState → RunRes) :
    (r.andThen f).state? = r.state?.bind (fun s => (f s).state?) := by
  cases r with
  | err o e => rfl
  | ok o s =>
    show ((f s).prependOut o).state? = (f s).state?
    exact RunRes.state?_prependOut o (f s)

/-- Definitional unfolding of the sample loop on a nonempty list. -/
theorem runDet_cons (cfg : Config) (s : LoopState) (a : ℚ) (rest : List ℚ) :
    runDet cfg s (a :: rest) =
      match processSample cfg s a with
      | .err e => .err [] e
      | .ok s2 none => runDet cfg s2 rest
      | .ok s2 (some c) => (runDet cfg s2 rest).consOut c := rfl

/-- The sample loop splits over list concatenation. -/
theorem runDet_append (cfg : Config) (s : LoopState) (xs ys : List ℚ) :
    runDet cfg s (xs ++ ys) = (runDet cfg s xs).andThen (fun s2 => runDet cfg s2 ys) := by
  induction xs generalizing s with
  | nil => simp [runDet, RunRes.andThen, RunRes.prependOut_nil]
  | cons a xs ih =>
    rw [List.cons_append, runDet_cons, runDet_cons]
    cases hps : processSample cfg s a with
    | err e => rfl
    | ok s2 eo =>
      cases eo with
      | none => exact ih s2
      | some c =>
        show (runDet cfg s2 (xs ++ ys)).consOut c =
          ((runDet cfg s2 xs).consOut c).andThen fun s3 => runDet cfg s3 ys
        rw [ih s2, RunRes.andThen_consOut]

theorem detStateAt_zero (cfg : Config) (amps : List ℚ) :
    detStateAt cfg amps 0 = some initState := rfl

/-- The state trace advances by one processSample per stream element. -/
theorem detStateAt_succ (cfg : Config) (amps : List ℚ) (j : Nat) (a : ℚ)
    (ha : amps.get? j = some a) :
    detStateAt cfg amps (j + 1) =
      (detStateAt cfg amps j).bind (fun s => (processSample cfg s a).state?) := by
  rw [detStateAt, detStateAt, List.take_succ]
  have htl : amps[j]?.toList = [a] := by
    rw [← List.get?_eq_getElem?, ha]
    rfl
  rw [htl, runDet_append, RunRes.state?_andThen]
  congr 1
  funext s
  rw [runDet_cons]
  cases hps : processSample cfg s a with
  | err e => rfl
  | ok s2 eo => cases eo <;> rfl

/-- With a nonzero period length no exception arises, so the state after the
first j samples exists and its totalSampleCount is j. -/
theorem detStateAt_total (cfg : Config) (amps : List ℚ) (h : cfg.samplesPerPeriod ≠ 0) :
    ∀ j, j ≤ amps.length →
      ∃ s, detStateAt cfg amps j = some s ∧ s.totalSampleCount = j := by
  intro j
  induction j with
  | zero => exact fun _ => ⟨initState, rfl, rfl⟩
  | succ j ih =>
    intro hj
    obtain ⟨s, hs, ht⟩ := ih (by omega)
    have hlt : j < amps.length := by omega
    have ha : amps.get? j = some (amps.get ⟨j, hlt⟩) := List.get?_eq_get hlt
    rw [detStateAt_succ cfg amps j _ ha, hs]
    simp only [Option.some_bind]
    rw [processSample_eq cfg s _ h]
    split
    · exact ⟨_, rfl, by simp [StepResult.state?, ht]⟩
    · exact ⟨_, rfl, by simp [StepResult.state?, ht]⟩

/-- One step of the trace, seen through lastBubble: whatever the period
boundary does, the new lastBubble is the one produced by lines 139-147. -/
theorem detStateAt_lastBubble_step (cfg : Config) (amps : List ℚ)
    (h : cfg.samplesPerPeriod ≠ 0) (j : Nat) (s : LoopState) (a : ℚ)
    (hs : detStateAt cfg amps j = some s) (ha : amps.get? j = some a) :
    ∃ s2, detStateAt cfg amps (j + 1) = some s2 ∧
      s2.lastBubble = (bubbleStep cfg (s.totalSampleCount + 1) s.lastBubble
        s.periodBubbleCount ((a - s.lastPeriodMean) ^ 2) s.lastPeriodStdDevSq).1 ∧
      s2.totalSampleCount = s.totalSampleCount + 1 := by
  rw [detStateAt_succ cfg amps j a ha, hs]
  simp only [Option.some_bind]
  rw [processSample_eq cfg s a h]
  split
  · exact ⟨_, rfl, rfl, rfl⟩
  · exact ⟨_, rfl, rfl, rfl⟩

/-- Unfolding of candidateAt at a known state and sample. -/
theorem candidateAt_eq (cfg : Config) (amps : List ℚ) (j : Nat) (s : LoopState) (a : ℚ)
    (hs : detStateAt cfg amps (j - 1) = some s) (ha : amps.get? (j - 1) = some a) :
    candidateAt cfg amps j = bubbleTest s.lastPeriodStdDevSq ((a - s.lastPeriodMean) ^ 2) := by
  rw [candidateAt, hs, ha]

/-- Unfolding of acceptedAt at a known state and sample. -/
theorem acceptedAt_eq (cfg : Config) (amps : List ℚ) (j : Nat) (s : LoopState) (a : ℚ)
    (hs : detStateAt cfg amps (j - 1) = some s) (ha : amps.get? (j - 1) = some a) :
    acceptedAt cfg amps j =
      decide ((bubbleStep cfg (s.totalSampleCount + 1) s.lastBubble s.periodBubbleCount
        ((a - s.lastPeriodMean) ^ 2) s.lastPeriodStdDevSq).2 = s.periodBubbleCount + 1) := by
  rw [acceptedAt, hs, ha]

/-- A true candidateAt exposes the state before the sample, the sample, and
the passed test. -/
theorem candidateAt_elim (cfg : Config) (amps : List ℚ) (j : Nat)
    (h : candidateAt cfg amps j = true) :
    ∃ s a, detStateAt cfg amps (j - 1) = some s ∧ amps.get? (j - 1) = some a ∧
      bubbleTest s.lastPeriodStdDevSq ((a - s.lastPeriodMean) ^ 2) = true := by
  unfold candidateAt at h
  cases hs : detStateAt cfg amps (j - 1) with
  | none => rw [hs] at h; simp at h
  | some s =>
    cases ha : amps.get? (j - 1) with
    | none => rw [hs, ha] at h; simp at h
    | some a =>
      rw [hs, ha] at h
      exact ⟨s, a, rfl, rfl, h⟩

/-- From a candidate at index i1 up to (but excluding) the next candidate,
lastBubble stays pinned at i1: lines 140-147 only change it on candidates
and the period boundary block never touches it. -/
theorem lastBubble_tracks (cfg : Config) (amps : List ℚ) (i1 : Nat)
    (h : cfg.samplesPerPeriod ≠ 0) (hi1 : 0 < i1)
    (hc : candidateAt cfg amps i1 = true) :
    ∀ j, i1 ≤ j → j ≤ amps.length →
      (∀ k, i1 < k → k ≤ j → candidateAt cfg amps k = false) →
      ∃ s, detStateAt cfg amps j = some s ∧ s.lastBubble = i1 ∧
        s.totalSampleCount = j := by
  intro j hj
  induction j, hj using Nat.le_induction with
  | base =>
    intro hlen _
    obtain ⟨s0, a0, hs0, ha0, hb0⟩ := candidateAt_elim cfg amps i1 hc
    obtain ⟨s0t, hs0t, ht0⟩ := detStateAt_total cfg amps h (i1 - 1) (by omega)
    rw [hs0] at hs0t
    injection hs0t with heq
    subst heq
    obtain ⟨s1, hs1, hlb1, htot1⟩ := detStateAt_lastBubble_step cfg amps h (i1 - 1) s0 a0 hs0 ha0
    refine ⟨s1, ?_, ?_, ?_⟩
    · rw [← hs1]; congr 1; omega
    · rw [hlb1, bubbleStep_of_candidate cfg _ _ _ _ _ hb0]
      simp [ht0]
      omega
    · omega
  | succ j hj ih =>
    intro hlen hnone
    obtain ⟨s, hs, hlb, ht⟩ := ih (by omega) (fun k hk1 hk2 => hnone k hk1 (by omega))
    have hjlt : j < amps.length := by omega
    have ha : amps.get? j = some (amps.get ⟨j, hjlt⟩) := List.get?_eq_get hjlt
    have hcf : candidateAt cfg amps (j + 1) = false := hnone (j + 1) (by omega) le_rfl
    rw [candidateAt_eq cfg amps (j + 1) s (amps.get ⟨j, hjlt⟩)
      (by simp only [Nat.add_sub_cancel]; exact hs)
      (by simp only [Nat.add_sub_cancel]; exact ha)] at hcf
    obtain ⟨s2, hs2, hlb2, htot2⟩ := detStateAt_lastBubble_step cfg amps h j s
      (amps.get ⟨j, hjlt⟩) hs ha
    refine ⟨s2, hs2, ?_, by omega⟩
    rw [hlb2, bubbleStep_of_not_candidate cfg _ _ _ _ _ hcf]
    exact hlb

unseal Rat.add Rat.mul Rat.sub Rat.inv

/-- Configuration used for concrete debounce runs: 1000 Hz, a 1000 ms
period (1000 samples per period) and a 2 ms minimum bubble gap (2 samples). -/
def cexCfg : Config := ⟨1000, 1000, 2⟩

/-- Amplitude stream with candidates at sample numbers 5 and 7, a gap of
exactly minSamplesBetweenBubbles = 2. -/
def cexAmps : List ℚ := [0, 0, 0, 0, 100, 0, 100]

/-- C1: the claim states that a second candidate at a gap greater than or
equal to minSamplesBetweenEvents from the most recent candidate is counted.
False: samples 5 and 7 are both candidates at gap exactly
minSamplesBetweenBubbles = 2, sample 5 is counted, yet sample 7 is not,
because line 146 demands totalSampleCount strictly greater than
lastBubble + minSamplesBetweenBubbles.  The end-to-end byte-level run (S8
format) confirms the final periodBubbleCount is 1, not 2. -/
theorem C1_counterexample :
    cexCfg.minSamplesBetweenBubbles = 2 ∧
    candidateAt cexCfg cexAmps 5 = true ∧
    candidateAt cexCfg cexAmps 6 = false ∧
    candidateAt cexCfg cexAmps 7 = true ∧
    acceptedAt cexCfg cexAmps 5 = true ∧
    acceptedAt cexCfg cexAmps 7 = false ∧
    (startLoop cexCfg 1 (decOfFmt .s8) none
        [0, 0, 0, 0, 100, 0, 100] initState).state? =
      some ⟨7, 200, 0, 20000, 0, 7, 1⟩ := by
  decide

/-- C1 (amended): for any run and any two successive candidates, at sample
numbers i1 and i2 with no candidate in between, the second is counted as an
event exactly when its gap from the most recent candidate is strictly
greater than minSamplesBetweenEvents (equivalently,
i1 + minSamplesBetweenBubbles < i2); in particular a gap strictly less than
(indeed, less than or equal to) minSamplesBetweenEvents means only the first
can be counted. -/
theorem C1_debounce_amended (cfg : Config) (amps : List ℚ) (i1 i2 : Nat)
    (hspp : 0 < cfg.samplesPerPeriod) (hi1 : 0 < i1) (h12 : i1 < i2)
    (hc1 : candidateAt cfg amps i1 = true)
    (hmid : ∀ k, i1 < k → k < i2 → candidateAt cfg amps k = false)
    (hc2 : candidateAt cfg amps i2 = true) :
    (acceptedAt cfg amps i2 = true ↔ i1 + cfg.minSamplesBetweenBubbles < i2) := by
  have h' : cfg.samplesPerPeriod ≠ 0 := by omega
  obtain ⟨s2, a2, hs2, ha2, hb2⟩ := candidateAt_elim cfg amps i2 hc2
  have hlen2 : i2 - 1 < amps.length := (List.get?_eq_some.mp ha2).1
  obtain ⟨s, hs, hlb, ht⟩ := lastBubble_tracks cfg amps i1 h' hi1 hc1 (i2 - 1)
    (by omega) (by omega) (fun k hk1 hk2 => hmid k hk1 (by omega))
  rw [hs] at hs2
  have hseq : s2 = s := (Option.some.inj hs2).symm
  rw [hseq] at hb2
  rw [acceptedAt_eq cfg amps i2 s a2 hs ha2,
    bubbleStep_of_candidate cfg _ _ _ _ _ hb2]
  simp only [decide_eq_true_iff]
  have htot : s.totalSampleCount + 1 = i2 := by omega
  rw [hlb, htot]
  show (if i1 + cfg.minSamplesBetweenBubbles < i2 then s.periodBubbleCount + 1
    else s.periodBubbleCount) = s.periodBubbleCount + 1 ↔
    i1 + cfg.minSamplesBetweenBubbles < i2
  constructor
  · intro hh
    by_contra hcond
    rw [if_neg hcond] at hh
    omega
  · intro hcond
    rw [if_pos hcond]

/-- Witness for C1_debounce_amended at the concrete run of cexAmps:
candidates at 5 and 7, gap exactly 2 = minSamplesBetweenBubbles, so the
amended acceptance condition 5 + 2 < 7 is false and so is acceptedAt 7. -/
theorem C1_debounce_amended_witness :
    acceptedAt cexCfg cexAmps 7 = true ↔ 5 + cexCfg.minSamplesBetweenBubbles < 7 :=
  C1_debounce_amended cexCfg cexAmps 5 7 (by decide) (by decide) (by decide) (by decide)
    (fun k hk1 hk2 => by
      have hk : k = 6 := by omega
      subst hk
      decide)
    (by decide)

/-- C3: every candidate sample (one passing the test of line 140) sets
lastBubble to the current totalSampleCount whether or not the candidate is
accepted (line 143 runs before the acceptance check of line 146 and neither
acceptance nor the period boundary block changes lastBubble), so the
debounce gap is measured from the most recent candidate. -/
theorem C3_lastBubble_on_candidate (cfg : Config) (s : LoopState) (a : ℚ)
    (s2 : LoopState) (eo : Option Nat) (hspp : cfg.samplesPerPeriod ≠ 0)
    (hc : bubbleTest s.lastPeriodStdDevSq ((a - s.lastPeriodMean) ^ 2) = true)
    (h : processSample cfg s a = .ok s2 eo) :
    s2.lastBubble = s.totalSampleCount + 1 := by
  rw [processSample_eq cfg s a hspp] at h
  split at h <;> injection h with h1 h2 <;> subst h1 <;>
    simp [bubbleStep_of_candidate _ _ _ _ _ _ hc]

/-- Witness for C3_lastBubble_on_candidate: a candidate with amplitude 5 at
the very first sample of a run (not accepted, since the gap test fails)
still moves lastBubble to 1. -/
theorem C3_lastBubble_on_candidate_witness :
    bubbleTest initState.lastPeriodStdDevSq ((5 - initState.lastPeriodMean) ^ 2) = true ∧
    (LoopState.mk 1 5 0 25 0 1 0).lastBubble = initState.totalSampleCount + 1 :=
  ⟨by decide, C3_lastBubble_on_candidate cexCfg initState 5 ⟨1, 5, 0, 25, 0, 1, 0⟩ none
    (by decide) (by decide) (by decide)⟩

/-- C9: a candidate whose absolute sample number is at most
minSamplesBetweenBubbles is never counted: lastBubble is a natural number
initialised to 0 (line 122), so line 146 requires
totalSampleCount > lastBubble + minSamplesBetweenBubbles, impossible when
totalSampleCount is at most minSamplesBetweenBubbles.  This covers the very
first candidate of the stream. -/
theorem C9_initial_debounce :
    initState.lastBubble = 0 ∧
    ∀ (cfg : Config) (total lb cnt : Nat) (v d : ℚ),
      total ≤ cfg.minSamplesBetweenBubbles →
      (bubbleStep cfg total lb cnt v d).2 = cnt := by
  refine ⟨rfl, fun cfg total lb cnt v d h => ?_⟩
  by_cases hb : bubbleTest d v = true
  · rw [bubbleStep_of_candidate cfg total lb cnt v d hb]
    show (if lb + cfg.minSamplesBetweenBubbles < total then cnt + 1 else cnt) = cnt
    rw [if_neg (by omega)]
  · rw [bubbleStep_of_not_candidate cfg total lb cnt v d
      (by simpa using hb)]

/-- Witness for C9_initial_debounce: a clear candidate (variance 9 against a
zero baseline) at sample 1 under the default configuration
(minSamplesBetweenBubbles = 1200) is not counted. -/
theorem C9_initial_debounce_witness :
    1 ≤ (Config.mk 8000 1000 150).minSamplesBetweenBubbles ∧
    (bubbleStep ⟨8000, 1000, 150⟩ 1 0 0 9 0).2 = 0 :=
  ⟨by decide, C9_initial_debounce.2 ⟨8000, 1000, 150⟩ 1 0 0 9 0 (by decide)⟩

/-- C6: at every period boundary, periodSum, periodVarianceSum and
periodBubbleCount are reset to zero (lines 158-160) while lastBubble keeps
exactly the value lines 139-147 gave it: the boundary block does not touch
the debounce state, which therefore persists across period boundaries. -/
theorem C6_period_boundary_reset (cfg : Config) (s : LoopState) (a : ℚ)
    (h : cfg.samplesPerPeriod ≠ 0)
    (hb : (s.totalSampleCount + 1) % cfg.samplesPerPeriod = 0) :
    processSample cfg s a = .ok
      ⟨s.totalSampleCount + 1, 0,
       (s.periodSum + a) / (cfg.samplesPerPeriod : ℚ), 0,
       (s.periodVarianceSum + (a - s.lastPeriodMean) ^ 2) / (cfg.samplesPerPeriod : ℚ),
       (bubbleStep cfg (s.totalSampleCount + 1) s.lastBubble s.periodBubbleCount
         ((a - s.lastPeriodMean) ^ 2) s.lastPeriodStdDevSq).1, 0⟩
      (some (bubbleStep cfg (s.totalSampleCount + 1) s.lastBubble s.periodBubbleCount
         ((a - s.lastPeriodMean) ^ 2) s.lastPeriodStdDevSq).2) := by
  rw [processSample_eq cfg s a h, if_pos hb]

/-- Witness for C6_period_boundary_reset: one sample of amplitude 3 with a
one-sample period (1000 Hz, 1 ms) hits a boundary immediately; the period
accumulators of the result are zero and lastBubble is the bubbleStep value. -/
theorem C6_period_boundary_reset_witness :
    (Config.mk 1000 1 1).samplesPerPeriod ≠ 0 ∧
    (initState.totalSampleCount + 1) % (Config.mk 1000 1 1).samplesPerPeriod = 0 ∧
    processSample ⟨1000, 1, 1⟩ initState 3 = .ok
      ⟨initState.totalSampleCount + 1, 0,
       (initState.periodSum + 3) / (((Config.mk 1000 1 1).samplesPerPeriod : ℚ)), 0,
       (initState.periodVarianceSum + (3 - initState.lastPeriodMean) ^ 2) /
         (((Config.mk 1000 1 1).samplesPerPeriod : ℚ)),
       (bubbleStep ⟨1000, 1, 1⟩ (initState.totalSampleCount + 1) initState.lastBubble
         initState.periodBubbleCount ((3 - initState.lastPeriodMean) ^ 2)
         initState.lastPeriodStdDevSq).1, 0⟩
      (some (bubbleStep ⟨1000, 1, 1⟩ (initState.totalSampleCount + 1) initState.lastBubble
         initState.periodBubbleCount ((3 - initState.lastPeriodMean) ^ 2)
         initState.lastPeriodStdDevSq).2) :=
  ⟨by decide, by decide,
    C6_period_boundary_reset ⟨1000, 1, 1⟩ initState 3 (by decide) (by decide)⟩

/-- One loop iteration that emits nothing just advances the state. -/
theorem runDet_step_none (cfg : Config) (s : LoopState) (a : ℚ) (rest : List ℚ)
    (s2 : LoopState) (h : processSample cfg s a = .ok s2 none) :
    runDet cfg s (a :: rest) = runDet cfg s2 rest := by
  rw [runDet_cons, h]

/-- One loop iteration that emits a count prepends it to the remaining run. -/
theorem runDet_step_some (cfg : Config) (s : LoopState) (a : ℚ) (rest : List ℚ)
    (s2 : LoopState) (cnt : Nat) (h : processSample cfg s a = .ok s2 (some cnt)) :
    runDet cfg s (a :: rest) = (runDet cfg s2 rest).consOut cnt := by
  rw [runDet_cons, h]

theorem steadyStep (cfg : Config) (c d p : ℚ) (t lb : Nat)
    (hspp : cfg.samplesPerPeriod ≠ 0) (hd : 0 ≤ d)
    (hnb : (t + 1) % cfg.samplesPerPeriod ≠ 0) :
    processSample cfg ⟨t, p, c, 0, d, lb, 0⟩ c = .ok ⟨t + 1, p + c, c, 0, d, lb, 0⟩ none := by
  have hbt0 : bubbleTest d 0 = false := by
    rw [bubbleTest, decide_eq_false_iff_not]
    push_neg
    positivity
  rw [processSample_eq cfg _ c hspp]
  rw [if_neg hnb]
  simp [sub_self, bubbleStep_of_not_candidate cfg _ _ _ _ _ hbt0]

theorem steadyStepBoundary (cfg : Config) (c d p : ℚ) (t lb : Nat)
    (hspp : cfg.samplesPerPeriod ≠ 0) (hd : 0 ≤ d)
    (hb : (t + 1) % cfg.samplesPerPeriod = 0) :
    processSample cfg ⟨t, p, c, 0, d, lb, 0⟩ c =
      .ok ⟨t + 1, 0, (p + c) / (cfg.samplesPerPeriod : ℚ), 0, 0, lb, 0⟩ (some 0) := by
  have hbt0 : bubbleTest d 0 = false := by
    rw [bubbleTest, decide_eq_false_iff_not]
    push_neg
    positivity
  rw [processSample_eq cfg _ c hspp]
  rw [if_pos hb]
  simp [sub_self, bubbleStep_of_not_candidate cfg _ _ _ _ _ hbt0]

theorem bootStep (cfg : Config) (c : ℚ) (t lb cnt : Nat)
    (hspp : cfg.samplesPerPeriod ≠ 0)
    (hnb : (t + 1) % cfg.samplesPerPeriod ≠ 0) :
    processSample cfg ⟨t, (t : ℚ) * c, 0, (t : ℚ) * c ^ 2, 0, lb, cnt⟩ c =
      .ok ⟨t + 1, ((t : ℚ) + 1) * c, 0, ((t : ℚ) + 1) * c ^ 2, 0,
        (bubbleStep cfg (t + 1) lb cnt (c ^ 2) 0).1,
        (bubbleStep cfg (t + 1) lb cnt (c ^ 2) 0).2⟩ none := by
  have h1 : (t : ℚ) * c + c = ((t : ℚ) + 1) * c := by ring
  have h2 : (t : ℚ) * c ^ 2 + c ^ 2 = ((t : ℚ) + 1) * c ^ 2 := by ring
  rw [processSample_eq cfg _ c hspp]
  rw [if_neg hnb]
  simp [sub_zero, h1, h2]

theorem bootStepBoundary (cfg : Config) (c : ℚ) (t lb cnt : Nat)
    (hspp : cfg.samplesPerPeriod ≠ 0)
    (hb : (t + 1) % cfg.samplesPerPeriod = 0) :
    processSample cfg ⟨t, (t : ℚ) * c, 0, (t : ℚ) * c ^ 2, 0, lb, cnt⟩ c =
      .ok ⟨t + 1, 0, ((t : ℚ) + 1) * c / (cfg.samplesPerPeriod : ℚ), 0,
        ((t : ℚ) + 1) * c ^ 2 / (cfg.samplesPerPeriod : ℚ),
        (bubbleStep cfg (t + 1) lb cnt (c ^ 2) 0).1, 0⟩
      (some (bubbleStep cfg (t + 1) lb cnt (c ^ 2) 0).2) := by
  have h1 : (t : ℚ) * c + c = ((t : ℚ) + 1) * c := by ring
  have h2 : (t : ℚ) * c ^ 2 + c ^ 2 = ((t : ℚ) + 1) * c ^ 2 := by ring
  rw [processSample_eq cfg _ c hspp]
  rw [if_pos hb]
  simp [sub_zero, h1, h2]

theorem bootstrapAux (cfg : Config) (c : ℚ) (rest : List ℚ)
    (hspp : 0 < cfg.samplesPerPeriod) :
    ∀ m lb cnt, 0 < m → m ≤ cfg.samplesPerPeriod →
    ∃ lb2 cnt2,
      runDet cfg ⟨cfg.samplesPerPeriod - m,
          ((cfg.samplesPerPeriod - m : Nat) : ℚ) * c, 0,
          ((cfg.samplesPerPeriod - m : Nat) : ℚ) * c ^ 2, 0, lb, cnt⟩
        (List.replicate m c ++ rest) =
      (runDet cfg ⟨cfg.samplesPerPeriod, 0, c, 0, c ^ 2, lb2, 0⟩ rest).consOut cnt2 := by
  intro m
  induction m with
  | zero => intro lb cnt hm0 _; omega
  | succ m ih =>
    intro lb cnt hm0 hmle
    rcases Nat.eq_zero_or_pos m with hm | hm
    · subst hm
      have h1 : cfg.samplesPerPeriod - 1 + 1 = cfg.samplesPerPeriod := by omega
      have hb : (cfg.samplesPerPeriod - 1 + 1) % cfg.samplesPerPeriod = 0 := by
        rw [h1, Nat.mod_self]
      have hne : (cfg.samplesPerPeriod : ℚ) ≠ 0 := Nat.cast_ne_zero.mpr (by omega)
      have hcast : ((cfg.samplesPerPeriod - 1 : Nat) : ℚ) + 1 = (cfg.samplesPerPeriod : ℚ) := by
        rw [← Nat.cast_add_one, h1]
      have hstep := bootStepBoundary cfg c (cfg.samplesPerPeriod - 1) lb cnt (by omega) hb
      rw [show List.replicate 1 c ++ rest = c :: rest from rfl,
        runDet_step_some cfg _ c rest _ _ hstep, h1, hcast,
        mul_div_cancel_left₀ c hne, mul_div_cancel_left₀ (c ^ 2) hne]
      exact ⟨_, _, rfl⟩
    · have h1 : cfg.samplesPerPeriod - (m + 1) + 1 = cfg.samplesPerPeriod - m := by omega
      have hnb : (cfg.samplesPerPeriod - (m + 1) + 1) % cfg.samplesPerPeriod ≠ 0 := by
        rw [h1, Nat.mod_eq_of_lt (by omega)]
        omega
      have hcast : ((cfg.samplesPerPeriod - (m + 1) : Nat) : ℚ) + 1 =
          ((cfg.samplesPerPeriod - m : Nat) : ℚ) := by
        rw [← Nat.cast_add_one, h1]
      have hstep := bootStep cfg c (cfg.samplesPerPeriod - (m + 1)) lb cnt (by omega) hnb
      rw [List.replicate_succ, List.cons_append,
        runDet_step_none cfg _ c _ _ hstep, h1, hcast]
      exact ih _ _ hm (by omega)

theorem steadyAux (cfg : Config) (c d : ℚ) (rest : List ℚ) (k lb : Nat)
    (hspp : 0 < cfg.samplesPerPeriod) (hd : 0 ≤ d) :
    ∀ m, 0 < m → m ≤ cfg.samplesPerPeriod →
    runDet cfg ⟨k * cfg.samplesPerPeriod + (cfg.samplesPerPeriod - m),
        ((cfg.samplesPerPeriod - m : Nat) : ℚ) * c, c, 0, d, lb, 0⟩
      (List.replicate m c ++ rest) =
    (runDet cfg ⟨(k + 1) * cfg.samplesPerPeriod, 0, c, 0, 0, lb, 0⟩ rest).consOut 0 := by
  intro m
  induction m with
  | zero => intro hm0 _; omega
  | succ m ih =>
    intro hm0 hmle
    rcases Nat.eq_zero_or_pos m with hm | hm
    · subst hm
      have h1 : k * cfg.samplesPerPeriod + (cfg.samplesPerPeriod - 1) + 1 =
          (k + 1) * cfg.samplesPerPeriod := by
        have hs1 : cfg.samplesPerPeriod - 1 + 1 = cfg.samplesPerPeriod := by omega
        calc k * cfg.samplesPerPeriod + (cfg.samplesPerPeriod - 1) + 1
            = k * cfg.samplesPerPeriod + (cfg.samplesPerPeriod - 1 + 1) := by omega
          _ = k * cfg.samplesPerPeriod + cfg.samplesPerPeriod := by rw [hs1]
          _ = (k + 1) * cfg.samplesPerPeriod := by ring
      have hb : (k * cfg.samplesPerPeriod + (cfg.samplesPerPeriod - 1) + 1) %
          cfg.samplesPerPeriod = 0 := by
        rw [h1, Nat.mul_mod_left]
      have hne : (cfg.samplesPerPeriod : ℚ) ≠ 0 := Nat.cast_ne_zero.mpr (by omega)
      have hsum : ((cfg.samplesPerPeriod - 1 : Nat) : ℚ) * c + c =
          (cfg.samplesPerPeriod : ℚ) * c := by
        have hcast : ((cfg.samplesPerPeriod - 1 : Nat) : ℚ) + 1 = (cfg.samplesPerPeriod : ℚ) := by
          rw [← Nat.cast_add_one]
          congr 1
          omega
        rw [← hcast]
        ring
      have hstep := steadyStepBoundary cfg c d (((cfg.samplesPerPeriod - 1 : Nat) : ℚ) * c)
        (k * cfg.samplesPerPeriod + (cfg.samplesPerPeriod - 1)) lb (by omega) hd hb
      rw [show List.replicate 1 c ++ rest = c :: rest from rfl,
        runDet_step_some cfg _ c rest _ _ hstep, h1, hsum,
        mul_div_cancel_left₀ c hne]
    · have h1 : k * cfg.samplesPerPeriod + (cfg.samplesPerPeriod - (m + 1)) + 1 =
          k * cfg.samplesPerPeriod + (cfg.samplesPerPeriod - m) := by omega
      have hnb : (k * cfg.samplesPerPeriod + (cfg.samplesPerPeriod - (m + 1)) + 1) %
          cfg.samplesPerPeriod ≠ 0 := by
        rw [h1, Nat.add_comm, Nat.add_mul_mod_self_right,
          Nat.mod_eq_of_lt (by omega)]
        omega
      have hsum : ((cfg.samplesPerPeriod - (m + 1) : Nat) : ℚ) * c + c =
          ((cfg.samplesPerPeriod - m : Nat) : ℚ) * c := by
        have hcast : ((cfg.samplesPerPeriod - (m + 1) : Nat) : ℚ) + 1 =
            ((cfg.samplesPerPeriod - m : Nat) : ℚ) := by
          rw [← Nat.cast_add_one]
          congr 1
          omega
        rw [← hcast]
        ring
      have hstep := steadyStep cfg c d (((cfg.samplesPerPeriod - (m + 1) : Nat) : ℚ) * c)
        (k * cfg.samplesPerPeriod + (cfg.samplesPerPeriod - (m + 1))) lb (by omega) hd hnb
      rw [List.replicate_succ, List.cons_append,
        runDet_step_none cfg _ c _ _ hstep, h1, hsum]
      exact ih hm (by omega)

theorem chainPeriods (cfg : Config) (c : ℚ)
    (hspp : 0 < cfg.samplesPerPeriod) :
    ∀ (p : Nat) (d : ℚ) (k lb : Nat), 0 ≤ d →
    ∃ sfin, runDet cfg ⟨k * cfg.samplesPerPeriod, 0, c, 0, d, lb, 0⟩
        (List.replicate (p * cfg.samplesPerPeriod) c) =
      .ok (List.replicate p 0) sfin := by
  intro p
  induction p with
  | zero =>
    intro d k lb _
    rw [Nat.zero_mul]
    exact ⟨_, rfl⟩
  | succ p ih =>
    intro d k lb hd
    have hrw : List.replicate ((p + 1) * cfg.samplesPerPeriod) c =
        List.replicate cfg.samplesPerPeriod c ++
          List.replicate (p * cfg.samplesPerPeriod) c := by
      rw [← List.replicate_add]
      congr 1
      ring
    have hs := steadyAux cfg c d (List.replicate (p * cfg.samplesPerPeriod) c) k lb hspp hd
      cfg.samplesPerPeriod hspp le_rfl
    rw [Nat.sub_self] at hs
    have hz2 : ((0 : Nat) : ℚ) * c = 0 := by simp
    rw [hz2, Nat.add_zero] at hs
    rw [hrw, hs]
    obtain ⟨sfin, hfin⟩ := ih 0 (k + 1) lb le_rfl
    rw [hfin]
    exact ⟨sfin, by rw [List.replicate_succ]; rfl⟩

theorem bootstrapPeriod (cfg : Config) (c : ℚ) (rest : List ℚ)
    (hspp : 0 < cfg.samplesPerPeriod) :
    ∃ lb2 cnt2,
      runDet cfg initState (List.replicate cfg.samplesPerPeriod c ++ rest) =
      (runDet cfg ⟨cfg.samplesPerPeriod, 0, c, 0, c ^ 2, lb2, 0⟩ rest).consOut cnt2 := by
  have h := bootstrapAux cfg c rest hspp cfg.samplesPerPeriod 0 0 hspp le_rfl
  rw [Nat.sub_self] at h
  have hz : ((0 : Nat) : ℚ) * c = 0 := by simp
  have hz2 : ((0 : Nat) : ℚ) * c ^ 2 = 0 := by simp
  rw [hz, hz2] at h
  exact h

/-- C7: on a constant-amplitude stream every period after the first emits an
event count of 0: after the bootstrap period the baseline mean is the
constant c, so the squared deviation of every later sample is 0, and the
candidate test (sqrt of 0 exceeding twice the baseline standard deviation)
is false for every nonnegative deviation, in particular
sqrt(0) > 2 * 0 is false (last conjunct, with bubbleTest at squared
standard deviation 0 and squared deviation 0). -/
theorem C7_constant_stream (cfg : Config) (c : ℚ) (n : Nat)
    (hspp : 0 < cfg.samplesPerPeriod) (_hc : 0 ≤ c) (hn : 1 ≤ n) :
    (runDet cfg initState (List.replicate (n * cfg.samplesPerPeriod) c)).errOf = none ∧
    (runDet cfg initState (List.replicate (n * cfg.samplesPerPeriod) c)).out.length = n ∧
    (runDet cfg initState (List.replicate (n * cfg.samplesPerPeriod) c)).out.drop 1 =
      List.replicate (n - 1) 0 ∧
    bubbleTest 0 0 = false := by
  obtain ⟨n2, rfl⟩ : ∃ n2, n = n2 + 1 := ⟨n - 1, by omega⟩
  have hrw : List.replicate ((n2 + 1) * cfg.samplesPerPeriod) c =
      List.replicate cfg.samplesPerPeriod c ++
        List.replicate (n2 * cfg.samplesPerPeriod) c := by
    rw [← List.replicate_add]
    congr 1
    ring
  obtain ⟨lb2, cnt2, hboot⟩ :=
    bootstrapPeriod cfg c (List.replicate (n2 * cfg.samplesPerPeriod) c) hspp
  obtain ⟨sfin, hchain⟩ := chainPeriods cfg c hspp n2 (c ^ 2) 1 lb2 (sq_nonneg c)
  rw [one_mul] at hchain
  rw [hrw, hboot, hchain]
  refine ⟨rfl, ?_, ?_, by decide⟩
  · simp [RunRes.consOut, RunRes.out]
  · simp [RunRes.consOut, RunRes.out]

/-- Witness for C7_constant_stream: two periods of the constant amplitude 1
at two samples per period emit the counts [0, 0]; dropping the bootstrap
line leaves [0], which is one period of zero events. -/
theorem C7_constant_stream_witness :
    0 < (Config.mk 1000 2 2).samplesPerPeriod ∧
    (runDet ⟨1000, 2, 2⟩ initState
      (List.replicate (2 * (Config.mk 1000 2 2).samplesPerPeriod) 1)).out.drop 1 =
      List.replicate (2 - 1) 0 :=
  ⟨by decide, (C7_constant_stream ⟨1000, 2, 2⟩ 1 2 (by decide) (by norm_num) (by norm_num)).2.2.1⟩

/-- Definitional unfolding of one driver iteration. -/
theorem startLoopAux_succ (cfg : Config) (width : Nat) (dec : List (Fin 256) → ℚ)
    (fuel : Nat) (ioFail : Option Nat) (input : List (Fin 256)) (s : LoopState) :
    startLoopAux cfg width dec (fuel + 1) ioFail input s =
      (if ioFail = some 0 then .err [] .ioError
      else if input.take width = [] then .ok [] s
      else if (input.take width).length < width then .err [] .structError
      else
        match processSample cfg s (dec (input.take width)) with
        | .err e => .err [] e
        | .ok s2 none =>
            startLoopAux cfg width dec fuel (tickIoFail ioFail) (input.drop width) s2
        | .ok s2 (some c) =>
            (startLoopAux cfg width dec fuel (tickIoFail ioFail) (input.drop width) s2).consOut c) :=
  rfl

/-- The injected read failure fires before anything else in the iteration. -/
theorem startLoopAux_fail0 (cfg : Config) (width : Nat) (dec : List (Fin 256) → ℚ)
    (fuel : Nat) (input : List (Fin 256)) (s : LoopState) :
    startLoopAux cfg width dec (fuel + 1) (some 0) input s = .err [] .ioError := by
  rw [startLoopAux_succ, if_pos rfl]

/-- An empty read ends the loop normally (the iter sentinel of line 126). -/
theorem startLoopAux_sentinel (cfg : Config) (width : Nat) (dec : List (Fin 256) → ℚ)
    (fuel : Nat) (ioFail : Option Nat) (input : List (Fin 256)) (s : LoopState)
    (hnf : ¬ ioFail = some 0) (h0 : input.take width = []) :
    startLoopAux cfg width dec (fuel + 1) ioFail input s = .ok [] s := by
  rw [startLoopAux_succ, if_neg hnf, if_pos h0]

/-- A nonempty short read reaches unpack, which raises struct.error. -/
theorem startLoopAux_short (cfg : Config) (width : Nat) (dec : List (Fin 256) → ℚ)
    (fuel : Nat) (ioFail : Option Nat) (input : List (Fin 256)) (s : LoopState)
    (hnf : ¬ ioFail = some 0) (h0 : ¬ input.take width = [])
    (hsh : (input.take width).length < width) :
    startLoopAux cfg width dec (fuel + 1) ioFail input s = .err [] .structError := by
  rw [startLoopAux_succ, if_neg hnf, if_neg h0, if_pos hsh]

/-- A full-width read that does not hit a period boundary advances state. -/
theorem startLoopAux_step_none (cfg : Config) (width : Nat) (dec : List (Fin 256) → ℚ)
    (fuel : Nat) (ioFail : Option Nat) (input : List (Fin 256)) (s s2 : LoopState)
    (hnf : ¬ ioFail = some 0) (h0 : ¬ input.take width = [])
    (hsh : ¬ (input.take width).length < width)
    (hps : processSample cfg s (dec (input.take width)) = .ok s2 none) :
    startLoopAux cfg width dec (fuel + 1) ioFail input s =
      startLoopAux cfg width dec fuel (tickIoFail ioFail) (input.drop width) s2 := by
  rw [startLoopAux_succ, if_neg hnf, if_neg h0, if_neg hsh, hps]

/-- A full-width read on a period boundary also prepends the emitted line. -/
theorem startLoopAux_step_some (cfg : Config) (width : Nat) (dec : List (Fin 256) → ℚ)
    (fuel : Nat) (ioFail : Option Nat) (input : List (Fin 256)) (s s2 : LoopState) (c : Nat)
    (hnf : ¬ ioFail = some 0) (h0 : ¬ input.take width = [])
    (hsh : ¬ (input.take width).length < width)
    (hps : processSample cfg s (dec (input.take width)) = .ok s2 (some c)) :
    startLoopAux cfg width dec (fuel + 1) ioFail input s =
      (startLoopAux cfg width dec fuel (tickIoFail ioFail) (input.drop width) s2).consOut c := by
  rw [startLoopAux_succ, if_neg hnf, if_neg h0, if_neg hsh, hps]

/-- On a period boundary the loop body emits the period count. -/
theorem processSample_boundary (cfg : Config) (s : LoopState) (a : ℚ)
    (h : cfg.samplesPerPeriod ≠ 0)
    (hb : (s.totalSampleCount + 1) % cfg.samplesPerPeriod = 0) :
    ∃ s2 c, processSample cfg s a = .ok s2 (some c) ∧
      s2.totalSampleCount = s.totalSampleCount + 1 := by
  rw [processSample_eq cfg s a h, if_pos hb]
  exact ⟨_, _, rfl, rfl⟩

/-- Off the period boundary the loop body emits nothing. -/
theorem processSample_nonboundary (cfg : Config) (s : LoopState) (a : ℚ)
    (h : cfg.samplesPerPeriod ≠ 0)
    (hb : ¬ (s.totalSampleCount + 1) % cfg.samplesPerPeriod = 0) :
    ∃ s2, processSample cfg s a = .ok s2 none ∧
      s2.totalSampleCount = s.totalSampleCount + 1 := by
  rw [processSample_eq cfg s a h, if_neg hb]
  exact ⟨_, rfl, rfl⟩

/-- Output size and exit status of the driver on an unfailing stream: with
0 < width and 0 < samplesPerPeriod, the number of emitted lines is the
number of complete periods among the complete samples of the stream, and
the run ends normally exactly when the stream has no trailing short chunk
(otherwise it raises struct.error). -/
theorem startLoopAux_master (cfg : Config) (width : Nat) (dec : List (Fin 256) → ℚ)
    (hw : 0 < width) (hspp : 0 < cfg.samplesPerPeriod) :
    ∀ (fuel : Nat) (input : List (Fin 256)) (s : LoopState), input.length < fuel →
      ((startLoopAux cfg width dec fuel none input s).out.length +
         s.totalSampleCount / cfg.samplesPerPeriod =
       (s.totalSampleCount + input.length / width) / cfg.samplesPerPeriod) ∧
      ((startLoopAux cfg width dec fuel none input s).errOf =
        if width ∣ input.length then none else some PyError.structError) := by
  intro fuel
  induction fuel with
  | zero => intro input s h; omega
  | succ fuel ih =>
    intro input s hlen
    by_cases h0 : input.take width = []
    · have hinil : input = [] := by
        rcases List.take_eq_nil_iff.mp h0 with h | h
        · omega
        · exact h
      subst hinil
      rw [startLoopAux_sentinel cfg width dec fuel none [] s (by simp) h0]
      constructor
      · simp [RunRes.out]
      · simp [RunRes.errOf]
    · have hpos : 0 < input.length := by
        cases input with
        | nil => exact absurd List.take_nil h0
        | cons b bs => simp
      by_cases hshort : (input.take width).length < width
      · have hlw : input.length < width := by
          rw [List.length_take] at hshort
          omega
        rw [startLoopAux_short cfg width dec fuel none input s (by simp) h0 hshort]
        constructor
        · show (0 : Nat) + s.totalSampleCount / cfg.samplesPerPeriod = _
          rw [Nat.div_eq_of_lt hlw, Nat.add_zero, Nat.zero_add]
        · show (some PyError.structError : Option PyError) = _
          rw [if_neg (fun hd => by
            have := Nat.le_of_dvd hpos hd
            omega)]
      · have hwle : width ≤ input.length := by
          rw [List.length_take] at hshort
          omega
        have hdroplen : (input.drop width).length = input.length - width :=
          List.length_drop width input
        have hrec : (input.drop width).length < fuel := by
          rw [hdroplen]
          omega
        have hdvd : width ∣ input.length ↔ width ∣ input.length - width := by
          constructor
          · exact fun h => Nat.dvd_sub' h dvd_rfl
          · intro h
            have hsplit : input.length = input.length - width + width := by omega
            rw [hsplit]
            exact Nat.dvd_add h dvd_rfl
        have hf1 : input.length / width = (input.length - width) / width + 1 :=
          Nat.div_eq_sub_div hw hwle
        have he : s.totalSampleCount + ((input.length - width) / width + 1) =
            s.totalSampleCount + 1 + (input.length - width) / width := by omega
        by_cases hb : (s.totalSampleCount + 1) % cfg.samplesPerPeriod = 0
        · obtain ⟨s2, c, hps, hs2t⟩ :=
            processSample_boundary cfg s (dec (input.take width)) (by omega) hb
          rw [startLoopAux_step_some cfg width dec fuel none input s s2 c (by simp) h0
            hshort hps]
          rw [show tickIoFail none = none from rfl]
          obtain ⟨ihA, ihB⟩ := ih (input.drop width) s2 hrec
          rw [hdroplen, hs2t] at ihA
          rw [hdroplen] at ihB
          have hsd : (s.totalSampleCount + 1) / cfg.samplesPerPeriod =
              s.totalSampleCount / cfg.samplesPerPeriod + 1 := by
            rw [Nat.succ_div, if_pos (Nat.dvd_iff_mod_eq_zero.mpr hb)]
          constructor
          · rw [RunRes.out_consOut, List.length_cons, hf1, he]
            omega
          · rw [RunRes.errOf_consOut, ihB]
            by_cases hd : width ∣ input.length
            · rw [if_pos (hdvd.mp hd), if_pos hd]
            · rw [if_neg (fun hc => hd (hdvd.mpr hc)), if_neg hd]
        · obtain ⟨s2, hps, hs2t⟩ :=
            processSample_nonboundary cfg s (dec (input.take width)) (by omega) hb
          rw [startLoopAux_step_none cfg width dec fuel none input s s2 (by simp) h0
            hshort hps]
          rw [show tickIoFail none = none from rfl]
          obtain ⟨ihA, ihB⟩ := ih (input.drop width) s2 hrec
          rw [hdroplen, hs2t] at ihA
          rw [hdroplen] at ihB
          have hsd : (s.totalSampleCount + 1) / cfg.samplesPerPeriod =
              s.totalSampleCount / cfg.samplesPerPeriod := by
            rw [Nat.succ_div,
              if_neg (fun hc => hb (Nat.dvd_iff_mod_eq_zero.mp hc)), Nat.add_zero]
          constructor
          · rw [hf1, he]
            omega
          · rw [ihB]
            by_cases hd : width ∣ input.length
            · rw [if_pos (hdvd.mp hd), if_pos hd]
            · rw [if_neg (fun hc => hd (hdvd.mpr hc)), if_neg hd]

/-- C5: with a positive period length, a stream of exactly
N * samplesPerPeriod complete samples and no trailing partial chunk emits
exactly N count lines (in period order, the output list being chronological)
and ends normally; a stream of q complete samples plus a nonempty short
trailing chunk emits exactly q / samplesPerPeriod lines (the complete
periods), the partial period producing no line, and stops at the short
chunk. -/
theorem C5_line_counts (cfg : Config) (width : Nat) (dec : List (Fin 256) → ℚ)
    (input : List (Fin 256)) (hw : 0 < width) (hspp : 0 < cfg.samplesPerPeriod) :
    (∀ N : Nat, input.length = N * cfg.samplesPerPeriod * width →
      (startLoop cfg width dec none input initState).errOf = none ∧
      (startLoop cfg width dec none input initState).out.length = N) ∧
    (∀ q r : Nat, input.length = q * width + r → 0 < r → r < width →
      (startLoop cfg width dec none input initState).errOf = some .structError ∧
      (startLoop cfg width dec none input initState).out.length =
        q / cfg.samplesPerPeriod) := by
  obtain ⟨hA, hB⟩ := startLoopAux_master cfg width dec hw hspp (input.length + 1) input
    initState (by omega)
  have h0t : initState.totalSampleCount = 0 := rfl
  rw [h0t, Nat.zero_div, Nat.add_zero, Nat.zero_add] at hA
  constructor
  · intro N hNlen
    constructor
    · rw [startLoop, hB, if_pos (hNlen ▸ dvd_mul_left width (N * cfg.samplesPerPeriod))]
    · rw [startLoop, hA, hNlen, Nat.mul_div_cancel _ hw, Nat.mul_div_cancel _ hspp]
  · intro q r hlen hr0 hrw
    have hnd : ¬ width ∣ input.length := by
      intro hd
      rw [hlen] at hd
      have hr : width ∣ r := (Nat.dvd_add_right (dvd_mul_left width q)).mp hd
      have := Nat.le_of_dvd hr0 hr
      omega
    constructor
    · rw [startLoop, hB, if_neg hnd]
    · rw [startLoop, hA, hlen, Nat.add_comm (q * width) r, Nat.add_mul_div_right r q hw,
        Nat.div_eq_of_lt hrw, Nat.zero_add]

/-- Witness for C5_line_counts: with two samples per period, two S8 samples
give one line and a clean exit, while one full S16_LE sample followed by a
one-byte short chunk gives zero lines and a struct.error exit. -/
theorem C5_line_counts_witness :
    ((startLoop ⟨1000, 2, 2⟩ 1 (decOfFmt .s8) none [0, 0] initState).errOf = none ∧
     (startLoop ⟨1000, 2, 2⟩ 1 (decOfFmt .s8) none [0, 0] initState).out.length = 1) ∧
    ((startLoop ⟨1000, 2, 2⟩ 2 (decOfFmt .s16le) none [0, 0, 0] initState).errOf =
        some .structError ∧
     (startLoop ⟨1000, 2, 2⟩ 2 (decOfFmt .s16le) none [0, 0, 0] initState).out.length =
        1 / (Config.mk 1000 2 2).samplesPerPeriod) :=
  ⟨(C5_line_counts ⟨1000, 2, 2⟩ 1 (decOfFmt .s8) [0, 0] (by decide) (by decide)).1 1
      (by decide),
   (C5_line_counts ⟨1000, 2, 2⟩ 2 (decOfFmt .s16le) [0, 0, 0] (by decide) (by decide)).2 1 1
      (by decide) (by decide) (by decide)⟩

/-- C10: when dataFrequency * listenTime < 1000 the computed
samplesPerPeriod is 0 (Python 2 integer division), and processing the very
first sample raises ZeroDivisionError at the period boundary test
totalSampleCount % samplesPerPeriod of line 150, before any count is
emitted: the run output is empty.  (What then escapes start to the caller
is the NameError produced by the broken except clause; see
C2_short_chunk_raises.) -/
theorem C10_zero_spp_division_error (cfg : Config) (width : Nat)
    (dec : List (Fin 256) → ℚ) (input : List (Fin 256))
    (hcfg : cfg.dataFrequency * cfg.listenTime < 1000)
    (hw : 0 < width) (hin : width ≤ input.length) :
    startLoop cfg width dec none input initState = .err [] .zeroDivisionError := by
  have hspp : cfg.samplesPerPeriod = 0 := Nat.div_eq_of_lt hcfg
  have hpos : 0 < input.length := by omega
  have h0 : ¬ input.take width = [] := by
    rw [List.take_eq_nil_iff]
    push_neg
    exact ⟨by omega, fun h => by rw [h] at hpos; simp at hpos⟩
  have hshort : ¬ (input.take width).length < width := by
    rw [List.length_take]
    omega
  rw [startLoop, startLoopAux_succ, if_neg (by simp : ¬ (none : Option Nat) = some 0),
    if_neg h0, if_neg hshort, processSample_of_spp_zero cfg initState _ hspp]

/-- Witness for C10_zero_spp_division_error: 1 Hz and a 1 ms period give
samplesPerPeriod = 0, and a one-byte S8 stream dies on its first sample. -/
theorem C10_zero_spp_division_error_witness :
    (Config.mk 1 1 1).dataFrequency * (Config.mk 1 1 1).listenTime < 1000 ∧
    startLoop ⟨1, 1, 1⟩ 1 (decOfFmt .s8) none [0] initState = .err [] .zeroDivisionError :=
  ⟨by decide, C10_zero_spp_division_error ⟨1, 1, 1⟩ 1 (decOfFmt .s8) [0] (by decide)
    (by decide) (by decide)⟩

/-- C2: the claim (and the spec) say a short trailing chunk is treated as a
graceful stream end with no error surfacing to the caller.  The code
intends that (the except struct.error clause with its broken stream
comment), but the module never binds the name struct, so when unpack
raises struct.error on the one-byte chunk the except clause itself raises
NameError, which escapes start: the caller sees an error, contradicting
the claim.  The claim matches the code intent, so this is a code bug. -/
theorem C2_short_chunk_raises :
    startLoop ⟨8000, 1000, 150⟩ 2 (decOfFmt .s16le) none [0] initState =
      .err [] .structError ∧
    startOutcome ⟨8000, 1000, 150⟩ 2 (decOfFmt .s16le) none [0] = ([], some .nameError) ∧
    exceptClauses .structError = some .nameError := by
  decide

/-- C4 counterexample: a run whose first read raises IOError terminates
with the error swallowed: startOutcome carries no surfaced error, refuting
the claim that an I/O failure on read is surfaced as a fatal I/O error. -/
theorem C4_counterexample :
    startLoop ⟨8000, 1000, 150⟩ 2 (decOfFmt .s16le) (some 0) [0, 0] initState =
      .err [] .ioError ∧
    startOutcome ⟨8000, 1000, 150⟩ 2 (decOfFmt .s16le) (some 0) [0, 0] = ([], none) := by
  decide

/-- C4 (amended): every run in which a read fails with an I/O error is
caught by the except IOError clause of line 163 and silently swallowed:
the run terminates quietly, surfacing no error to the caller, with only the
counts emitted before the failure visible. -/
theorem C4_ioerror_swallowed (cfg : Config) (width : Nat) (dec : List (Fin 256) → ℚ)
    (ioFail : Option Nat) (input : List (Fin 256)) (out : List Nat)
    (h : startLoop cfg width dec ioFail input initState = .err out .ioError) :
    startOutcome cfg width dec ioFail input = (out, none) := by
  unfold startOutcome
  rw [h]
  rfl

/-- Witness for C4_ioerror_swallowed: an immediate read failure yields the
quiet outcome with no output and no surfaced error. -/
theorem C4_ioerror_swallowed_witness :
    startLoop ⟨8000, 1000, 150⟩ 1 (decOfFmt .s8) (some 0) [] initState = .err [] .ioError ∧
    startOutcome ⟨8000, 1000, 150⟩ 1 (decOfFmt .s8) (some 0) [] = ([], none) :=
  ⟨by decide, C4_ioerror_swallowed ⟨8000, 1000, 150⟩ 1 (decOfFmt .s8) (some 0) [] []
    (by decide)⟩

theorem leNat_append (xs ys : List (Fin 256)) :
    leNat (xs ++ ys) = leNat xs + 256 ^ xs.length * leNat ys := by
  induction xs with
  | nil => simp [leNat]
  | cons b bs ih =>
    rw [List.cons_append,
      show leNat (b :: (bs ++ ys)) = (b : Nat) + 256 * leNat (bs ++ ys) from rfl,
      ih, List.length_cons,
      show leNat (b :: bs) = (b : Nat) + 256 * leNat bs from rfl]
    ring

/-- Reading big endian is reading the reversed bytes little endian. -/
theorem beNat_eq_leNat_reverse (bs : List (Fin 256)) :
    beNat bs = leNat bs.reverse := by
  suffices h : ∀ acc, bs.foldl (fun a b => 256 * a + b.val) acc =
      acc * 256 ^ bs.length + leNat bs.reverse by
    simpa [beNat] using h 0
  induction bs with
  | nil => intro acc; simp [leNat]
  | cons b bs ih =>
    intro acc
    simp only [List.foldl_cons, ih, List.reverse_cons, leNat_append, List.length_cons,
      List.length_reverse, leNat]
    ring

theorem natBytesLE_length (w n : Nat) : (natBytesLE w n).length = w := by
  induction w generalizing n with
  | zero => rfl
  | succ w ih => simp [natBytesLE, ih]

theorem leNat_natBytesLE (w n : Nat) : leNat (natBytesLE w n) = n % 2 ^ (8 * w) := by
  induction w generalizing n with
  | zero => simp [natBytesLE, leNat, Nat.mod_one]
  | succ w ih =>
    have h2 : (2 : Nat) ^ (8 * (w + 1)) = 256 * 2 ^ (8 * w) := by
      rw [show 8 * (w + 1) = 8 + 8 * w from by ring, pow_add]
      norm_num
    rw [natBytesLE, leNat, ih, h2, Nat.mod_mul]

theorem leNat_encodeLE (w : Nat) (v : ℤ) :
    ((leNat (encodeLE w v) : Nat) : ℤ) = v % (2 : ℤ) ^ (8 * w) := by
  rw [encodeLE, leNat_natBytesLE]
  have hMpos : (0 : ℤ) < (2 : ℤ) ^ (8 * w) := by positivity
  have hnn : 0 ≤ v % (2 : ℤ) ^ (8 * w) := Int.emod_nonneg v (by positivity)
  have hub : v % (2 : ℤ) ^ (8 * w) < (2 : ℤ) ^ (8 * w) := Int.emod_lt_of_pos v hMpos
  have h1 : ((v % (2 : ℤ) ^ (8 * w)).toNat : ℤ) = v % (2 : ℤ) ^ (8 * w) :=
    Int.toNat_of_nonneg hnn
  have hcast : ((2 ^ (8 * w) : ℕ) : ℤ) = (2 : ℤ) ^ (8 * w) := by push_cast; ring
  have h2 : (v % (2 : ℤ) ^ (8 * w)).toNat < 2 ^ (8 * w) := by omega
  rw [Nat.mod_eq_of_lt h2]
  exact h1

/-- Round trip of the spec encoding through the two's complement reading of
struct.unpack, for any in-range signed value. -/
theorem toSigned_encodeLE (w : Nat) (v : ℤ) (hw : 0 < w)
    (hlo : -(2 ^ (8 * w - 1)) ≤ v) (hhi : v < 2 ^ (8 * w - 1)) :
    toSigned w (leNat (encodeLE w v)) = v := by
  have hle := leNat_encodeLE w v
  have hsplit : 8 * w = 8 * w - 1 + 1 := by omega
  have hm1 : (2 : ℤ) ^ (8 * w) = 2 * 2 ^ (8 * w - 1) := by
    conv_lhs => rw [hsplit]
    rw [pow_succ]
    ring
  have hNpos : (0 : ℤ) < 2 ^ (8 * w - 1) := by positivity
  have hcastN : ((2 ^ (8 * w - 1) : ℕ) : ℤ) = (2 : ℤ) ^ (8 * w - 1) := by push_cast; ring
  have hcastM : ((2 ^ (8 * w) : ℕ) : ℤ) = (2 : ℤ) ^ (8 * w) := by push_cast; ring
  have hMpos : (0 : ℤ) < (2 : ℤ) ^ (8 * w) := by positivity
  have hnn : 0 ≤ v % (2 : ℤ) ^ (8 * w) := Int.emod_nonneg v (by positivity)
  have hub : v % (2 : ℤ) ^ (8 * w) < (2 : ℤ) ^ (8 * w) := Int.emod_lt_of_pos v hMpos
  have hvm : v % (2 : ℤ) ^ (8 * w) = v ∨
      v % (2 : ℤ) ^ (8 * w) = v + (2 : ℤ) ^ (8 * w) := by
    rcases le_or_lt 0 v with hv | hv
    · left
      exact Int.emod_eq_of_lt hv (by omega)
    · right
      have h0 : 0 ≤ v + (2 : ℤ) ^ (8 * w) := by omega
      have hlt2 : v + (2 : ℤ) ^ (8 * w) < (2 : ℤ) ^ (8 * w) := by omega
      have heq : (v + (2 : ℤ) ^ (8 * w) * 1) % (2 : ℤ) ^ (8 * w) = v % (2 : ℤ) ^ (8 * w) :=
        Int.add_mul_emod_self_left v ((2 : ℤ) ^ (8 * w)) 1
      rw [mul_one] at heq
      rw [← heq, Int.emod_eq_of_lt h0 hlt2]
  rw [toSigned]
  split
  · rcases hvm with h | h <;> omega
  · rcases hvm with h | h <;> omega

theorem unpackVal_s8_eval (chunk : List (Fin 256)) (h : chunk.length = 1) :
    unpackVal .s8 chunk = some (.num ((toSigned 1 (leNat chunk) : ℤ) : ℚ)) := by
  rw [unpackVal, if_pos (show chunk.length = dataSize SampleFormat.s8 from h)]

theorem unpackVal_s16le_eval (chunk : List (Fin 256)) (h : chunk.length = 2) :
    unpackVal .s16le chunk = some (.num ((toSigned 2 (leNat chunk) : ℤ) : ℚ)) := by
  rw [unpackVal, if_pos (show chunk.length = dataSize SampleFormat.s16le from h)]

theorem unpackVal_s16be_eval (chunk : List (Fin 256)) (h : chunk.length = 2) :
    unpackVal .s16be chunk = some (.num ((toSigned 2 (beNat chunk) : ℤ) : ℚ)) := by
  rw [unpackVal, if_pos (show chunk.length = dataSize SampleFormat.s16be from h)]

theorem unpackVal_s32le_eval (chunk : List (Fin 256)) (h : chunk.length = 4) :
    unpackVal .s32le chunk = some (.num ((toSigned 4 (leNat chunk) : ℤ) : ℚ)) := by
  rw [unpackVal, if_pos (show chunk.length = dataSize SampleFormat.s32le from h)]

theorem unpackVal_s32be_eval (chunk : List (Fin 256)) (h : chunk.length = 4) :
    unpackVal .s32be chunk = some (.num ((toSigned 4 (beNat chunk) : ℤ) : ℚ)) := by
  rw [unpackVal, if_pos (show chunk.length = dataSize SampleFormat.s32be from h)]

theorem unpackVal_s16_mirror (chunk : List (Fin 256)) :
    unpackVal .s16be chunk = unpackVal .s16le chunk.reverse := by
  simp only [unpackVal, dataSize, List.length_reverse, beNat_eq_leNat_reverse]

theorem unpackVal_s32_mirror (chunk : List (Fin 256)) :
    unpackVal .s32be chunk = unpackVal .s32le chunk.reverse := by
  simp only [unpackVal, dataSize, List.length_reverse, beNat_eq_leNat_reverse]

theorem unpackVal_float_mirror (chunk : List (Fin 256)) :
    unpackVal .floatbe chunk = unpackVal .floatle chunk.reverse := by
  simp only [unpackVal, dataSize, List.length_reverse, beNat_eq_leNat_reverse]

theorem unpackVal_float64_mirror (chunk : List (Fin 256)) :
    unpackVal .float64be chunk = unpackVal .float64le chunk.reverse := by
  simp only [unpackVal, dataSize, List.length_reverse, beNat_eq_leNat_reverse]

theorem encodeLE_length (w : Nat) (v : ℤ) : (encodeLE w v).length = w := by
  rw [encodeLE, natBytesLE_length]

theorem encodeBE_length (w : Nat) (v : ℤ) : (encodeBE w v).length = w := by
  rw [encodeBE, List.length_reverse, encodeLE_length]

theorem beNat_encodeBE (w : Nat) (v : ℤ) : beNat (encodeBE w v) = leNat (encodeLE w v) := by
  rw [encodeBE, beNat_eq_leNat_reverse, List.reverse_reverse]

/-- C8: for each of the nine formats and every chunk whose length equals
the format byte width, unpack succeeds (and succeeds only on that length),
producing a signed value read with the format numeric kind and endianness,
and the sample amplitude of lines 128-131 is the absolute value of that
signed value, nonnegative whenever finite; decoding is a pure function by
construction.  Endianness: each big-endian format reads a chunk exactly as
its little-endian partner reads the reversed chunk.  Numeric kind: the five
integer formats read two's complement, witnessed by a round trip of every
in-range signed value through the spec-side little- and big-endian
encoders; the four float formats follow IEEE-754, checked here on
characteristic bit patterns (1.0 in both binary32 endiannesses, -1.0 in
binary64 with amplitude 1, an infinity, and a NaN). -/
theorem C8_decode_abs :
    (∀ fmt chunk, (unpackVal fmt chunk).isSome = true ↔ chunk.length = dataSize fmt) ∧
    (∀ fmt chunk v, unpackVal fmt chunk = some v →
      sampleAbsVal fmt chunk = some (PyVal.abs v)) ∧
    (∀ v q, PyVal.abs v = PyVal.num q → 0 ≤ q) ∧
    (∀ chunk, unpackVal .s16be chunk = unpackVal .s16le chunk.reverse) ∧
    (∀ chunk, unpackVal .s32be chunk = unpackVal .s32le chunk.reverse) ∧
    (∀ chunk, unpackVal .floatbe chunk = unpackVal .floatle chunk.reverse) ∧
    (∀ chunk, unpackVal .float64be chunk = unpackVal .float64le chunk.reverse) ∧
    (∀ v : ℤ, -(2 ^ 7) ≤ v → v < 2 ^ 7 →
      unpackVal .s8 (encodeLE 1 v) = some (.num (v : ℚ))) ∧
    (∀ v : ℤ, -(2 ^ 15) ≤ v → v < 2 ^ 15 →
      unpackVal .s16le (encodeLE 2 v) = some (.num (v : ℚ)) ∧
      unpackVal .s16be (encodeBE 2 v) = some (.num (v : ℚ))) ∧
    (∀ v : ℤ, -(2 ^ 31) ≤ v → v < 2 ^ 31 →
      unpackVal .s32le (encodeLE 4 v) = some (.num (v : ℚ)) ∧
      unpackVal .s32be (encodeBE 4 v) = some (.num (v : ℚ))) ∧
    unpackVal .floatbe [0x3F, 0x80, 0, 0] = some (.num 1) ∧
    unpackVal .floatle [0, 0, 0x80, 0x3F] = some (.num 1) ∧
    unpackVal .float64be [0xBF, 0xF0, 0, 0, 0, 0, 0, 0] = some (.num (-1)) ∧
    sampleAbsVal .float64be [0xBF, 0xF0, 0, 0, 0, 0, 0, 0] = some (.num 1) ∧
    unpackVal .floatbe [0x7F, 0x80, 0, 0] = some .inf ∧
    unpackVal .floatbe [0x7F, 0xC0, 0, 0] = some .nan := by
  refine ⟨?_, ?_, ?_, unpackVal_s16_mirror, unpackVal_s32_mirror, unpackVal_float_mirror,
    unpackVal_float64_mirror, ?_, ?_, ?_, by decide, by decide, by decide, by decide,
    by decide, by decide⟩
  · intro fmt chunk
    rw [unpackVal.eq_def]
    split <;> simp_all
  · intro fmt chunk v h
    rw [sampleAbsVal, h]
    rfl
  · intro v q h
    cases v with
    | num q0 =>
      rw [PyVal.abs] at h
      injection h with h
      rw [← h]
      exact abs_nonneg q0
    | inf => exact absurd h (by rw [PyVal.abs]; simp)
    | neginf => exact absurd h (by rw [PyVal.abs]; simp)
    | nan => exact absurd h (by rw [PyVal.abs]; simp)
  · intro v hlo hhi
    have hrt : toSigned 1 (leNat (encodeLE 1 v)) = v := by
      apply toSigned_encodeLE 1 v (by norm_num)
      · rw [show (8 * 1 - 1 : Nat) = 7 from by norm_num]
        exact hlo
      · rw [show (8 * 1 - 1 : Nat) = 7 from by norm_num]
        exact hhi
    rw [unpackVal_s8_eval _ (encodeLE_length 1 v), hrt]
  · intro v hlo hhi
    have hrt : toSigned 2 (leNat (encodeLE 2 v)) = v := by
      apply toSigned_encodeLE 2 v (by norm_num)
      · rw [show (8 * 2 - 1 : Nat) = 15 from by norm_num]
        exact hlo
      · rw [show (8 * 2 - 1 : Nat) = 15 from by norm_num]
        exact hhi
    constructor
    · rw [unpackVal_s16le_eval _ (encodeLE_length 2 v), hrt]
    · rw [unpackVal_s16be_eval _ (encodeBE_length 2 v), beNat_encodeBE, hrt]
  · intro v hlo hhi
    have hrt : toSigned 4 (leNat (encodeLE 4 v)) = v := by
      apply toSigned_encodeLE 4 v (by norm_num)
      · rw [show (8 * 4 - 1 : Nat) = 31 from by norm_num]
        exact hlo
      · rw [show (8 * 4 - 1 : Nat) = 31 from by norm_num]
        exact hhi
    constructor
    · rw [unpackVal_s32le_eval _ (encodeLE_length 4 v), hrt]
    · rw [unpackVal_s32be_eval _ (encodeBE_length 4 v), beNat_encodeBE, hrt]

/-- Witness for C8_decode_abs: the round trip components applied at concrete
in-range values, including a negative one. -/
theorem C8_decode_abs_witness :
    (-(2 ^ 15) ≤ (-300 : ℤ) ∧ (-300 : ℤ) < 2 ^ 15 ∧
      unpackVal .s16le (encodeLE 2 (-300)) = some (.num ((-300 : ℤ) : ℚ))) ∧
    (-(2 ^ 7) ≤ (5 : ℤ) ∧ (5 : ℤ) < 2 ^ 7 ∧
      unpackVal .s8 (encodeLE 1 5) = some (.num ((5 : ℤ) : ℚ))) :=
  ⟨⟨by decide, by decide,
      (C8_decode_abs.2.2.2.2.2.2.2.2.1 (-300) (by decide) (by decide)).1⟩,
   ⟨by decide, by decide,
      C8_decode_abs.2.2.2.2.2.2.2.1 5 (by decide) (by decide)⟩⟩
